import Mathlib

/-!
Shallow embedding of the crankx crate (src/crankx/src/lib.rs) and its example
driver (src/example/src/main.rs).  Byte strings are `List Nat` with each
element intended `< 256`; 64-bit lanes are `Nat` reduced mod `2 ^ 64`.
The external EquiX engine is modelled by opaque function parameters; the
Keccak-256 hash used by `compute_hash` (the `sha3` crate's `Keccak256`) is
modelled concretely below so that hash values can be evaluated.
-/

namespace Crankx

/-! ### Keccak-256 (model of the external `sha3::Keccak256` collaborator) -/

/-- Rotate a 64-bit lane left by `n` bits (`0 ≤ n < 64`). -/
def rotl64 (x n : Nat) : Nat :=
  ((x <<< n) ||| (x >>> (64 - n))) % (2 ^ 64)

/-- One step of the degree-8 LFSR generating the Keccak round constants. -/
def rcStep (r : Nat) : Nat :=
  ((r <<< 1) ^^^ ((r >>> 7) * 0x71)) % 256

/-- The LFSR state after `t` steps from the initial state 1. -/
def rcByte : Nat → Nat
  | 0 => 1
  | t + 1 => rcStep (rcByte t)

/-- Round constant `i`: sequence bit `7 * i + j` lands at lane bit `2^j - 1`. -/
def roundConstant (i : Nat) : Nat :=
  (List.range 7).foldl (fun acc j => acc + rcByte (7 * i + j) % 2 * 2 ^ (2 ^ j - 1)) 0

/-- The 24 Keccak-f[1600] round constants. -/
def keccakRC : List Nat :=
  (List.range 24).map roundConstant

/-- Rotation offsets stored column-major, i.e. indexed by `y + 5 * x`. -/
def rotOffsetsByX : List Nat :=
  [0, 36, 3, 41, 18,
   1, 44, 10, 45, 2,
   62, 6, 43, 15, 61,
   28, 55, 25, 21, 56,
   27, 20, 39, 8, 14]

/-- Rotation offset of lane `(x, y)`. -/
def rotOffset (x y : Nat) : Nat :=
  rotOffsetsByX.getD (y + 5 * x) 0

/-- Lane `(x, y)` of a 25-lane state (row-major, index `x + 5 * y`). -/
def lane (s : List Nat) (x y : Nat) : Nat :=
  s.getD (x % 5 + 5 * (y % 5)) 0

/-- Keccak θ step. -/
def theta (s : List Nat) : List Nat :=
  let c := (List.range 5).map fun x =>
    lane s x 0 ^^^ lane s x 1 ^^^ lane s x 2 ^^^ lane s x 3 ^^^ lane s x 4
  let d := (List.range 5).map fun x =>
    c.getD ((x + 4) % 5) 0 ^^^ rotl64 (c.getD ((x + 1) % 5) 0) 1
  (List.range 25).map fun i => s.getD i 0 ^^^ d.getD (i % 5) 0

/-- Keccak ρ and π steps combined: the lane landing at `(xd, yd)` comes from
`((xd + 3 * yd) % 5, xd)`, rotated by its offset. -/
def rhoPi (s : List Nat) : List Nat :=
  (List.range 25).map fun j =>
    let xd := j % 5
    let yd := j / 5
    let xs := (xd + 3 * yd) % 5
    rotl64 (lane s xs xd) (rotOffset xs xd)

/-- Keccak χ step. -/
def chi (b : List Nat) : List Nat :=
  (List.range 25).map fun j =>
    let x := j % 5
    let y := j / 5
    lane b x y ^^^ ((lane b (x + 1) y ^^^ 0xFFFFFFFFFFFFFFFF) &&& lane b (x + 2) y)

/-- Keccak ι step: xor the round constant into lane (0,0). -/
def iotaXor (rc : Nat) (s : List Nat) : List Nat :=
  match s with
  | [] => []
  | a :: rest => (a ^^^ rc) :: rest

/-- One Keccak-f round. -/
def keccakRound (s : List Nat) (rc : Nat) : List Nat :=
  iotaXor rc (chi (rhoPi (theta s)))

/-- The full Keccak-f[1600] permutation (24 rounds). -/
def keccakF (s : List Nat) : List Nat :=
  keccakRC.foldl keccakRound s

/-- Split a list into chunks of `n` elements, with explicit fuel (structural). -/
def chunksGo (n : Nat) : Nat → List Nat → List (List Nat)
  | 0, _ => []
  | _, [] => []
  | fuel + 1, l => l.take n :: chunksGo n fuel (l.drop n)

/-- Split a list into chunks of `n` elements (`n ≥ 1`). -/
def chunks (n : Nat) (l : List Nat) : List (List Nat) :=
  chunksGo n l.length l

/-- Little-endian bytes to a 64-bit lane. -/
def laneOfBytes (bs : List Nat) : Nat :=
  bs.foldr (fun b acc => b + 256 * acc) 0

/-- 64-bit lane to 8 little-endian bytes. -/
def laneToBytes (x : Nat) : List Nat :=
  (List.range 8).map fun i => (x >>> (8 * i)) % 256

/-- Keccak pad10*1 with domain byte 0x01 (legacy Keccak, rate 136 bytes). -/
def pad101 (msg : List Nat) : List Nat :=
  let r := 136 - msg.length % 136
  if r = 1 then msg ++ [0x81]
  else msg ++ [0x01] ++ List.replicate (r - 2) 0 ++ [0x80]

/-- Absorb one 136-byte block into the state and permute. -/
def absorbBlock (st : List Nat) (block : List Nat) : List Nat :=
  let lanes := (chunks 8 block).map laneOfBytes
  keccakF ((List.range 25).map fun i => st.getD i 0 ^^^ lanes.getD i 0)

/-- Keccak-256 of a byte string: pad, absorb, and squeeze 32 bytes. -/
def keccak256 (msg : List Nat) : List Nat :=
  let final := (chunks 136 (pad101 msg)).foldl absorbBlock (List.replicate 25 0)
  ((final.take 4).map laneToBytes).flatten

/-! ### crankx core (src/crankx/src/lib.rs) -/

/-- The error kinds of `CrankXError`. -/
inductive CrankXError where
  | EquiXFailure
  | NoSolution
  | InvalidSolution
deriving DecidableEq, Repr

/-- `build_seed`: start from an empty buffer and extend it with the challenge,
the data and the nonce in that order. -/
def build_seed (challenge data nonce : List Nat) : List Nat :=
  let seed : List Nat := []
  let seed := seed ++ challenge
  let seed := seed ++ data
  let seed := seed ++ nonce
  seed

/-- Read 16 digest bytes as 8 little-endian unsigned 16-bit words, the
in-memory view the Rust transmute exposes on a little-endian target. -/
def bytesToWords : List Nat → List Nat
  | a :: b :: rest => (a + 256 * b) :: bytesToWords rest
  | _ => []

/-- Write 16-bit words back as little-endian byte pairs. -/
def wordsToBytes : List Nat → List Nat
  | [] => []
  | w :: rest => w % 256 :: (w / 256 % 256) :: wordsToBytes rest

/-- `to_canonical`: sort the digest's eight 16-bit words ascending and
re-encode them, mirroring `sort_unstable` on the transmuted word view.
Sorting ascending on a linear order has a unique result, so any correct
sort models `sort_unstable`; insertion sort keeps the model executable. -/
def to_canonical (digest : List Nat) : List Nat :=
  wordsToBytes (List.insertionSort (· ≤ ·) (bytesToWords digest))

/-- `compute_hash`: canonicalize a private copy of the digest, then Keccak-256
over `canonical digest ++ nonce`. -/
def compute_hash (digest nonce : List Nat) : List Nat :=
  keccak256 (to_canonical digest ++ nonce)

/-- `u8::leading_zeros` on a byte value. -/
def lz8 (b : Nat) : Nat :=
  if 128 ≤ b then 0 else if 64 ≤ b then 1 else if 32 ≤ b then 2
  else if 16 ≤ b then 3 else if 8 ≤ b then 4 else if 4 ≤ b then 5
  else if 2 ≤ b then 6 else if 1 ≤ b then 7 else 8

/-- `difficulty`: accumulate each byte's leading-zero count, stopping right
after the first byte whose count is below 8. -/
def difficulty : List Nat → Nat
  | [] => 0
  | b :: rest => if lz8 b < 8 then lz8 b else lz8 b + difficulty rest

/-- The `Solution` record: raw digest `d`, nonce `n`, final hash `h`. -/
structure Solution where
  d : List Nat
  n : List Nat
  h : List Nat
deriving DecidableEq, Repr

/-- `Solution::new`: store digest and nonce verbatim and recompute the hash. -/
def Solution.new (digest nonce : List Nat) : Solution :=
  { d := digest, n := nonce, h := compute_hash digest nonce }

/-- The derived `Default` instance: fieldwise defaults, i.e. a zero digest, a
zero nonce, and an all-zero hash field that is not recomputed. -/
def Solution.default : Solution :=
  { d := List.replicate 16 0, n := List.replicate 8 0, h := List.replicate 32 0 }

/-- `Solution::to_hash`. -/
def Solution.to_hash (s : Solution) : List Nat := s.h

/-- `Solution::difficulty`. -/
def Solution.difficulty (s : Solution) : Nat := Crankx.difficulty s.h

/-- `Solution::to_bytes`: 24 bytes, digest first, then nonce. -/
def Solution.to_bytes (s : Solution) : List Nat := s.d ++ s.n

/-- `Solution::from_bytes`: split the 24 bytes and rebuild via `new`. -/
def Solution.from_bytes (bytes : List Nat) : Solution :=
  Solution.new (bytes.take 16) (bytes.drop 16)

/-- `verify`: rebuild the seed and delegate to `equix::verify_bytes` (modelled
by the parameter `eqxVerify`), mapping any failure of the external check to
`EquiXFailure`. -/
def verify (eqxVerify : List Nat → List Nat → Bool)
    (challenge data nonce digest : List Nat) : Except CrankXError Unit :=
  let seed := build_seed challenge data nonce
  if eqxVerify seed digest then Except.ok ()
  else Except.error CrankXError.EquiXFailure

/-- `Solution::is_valid`: verify against the stored nonce and digest. -/
def Solution.is_valid (eqxVerify : List Nat → List Nat → Bool)
    (s : Solution) (challenge data : List Nat) : Except CrankXError Unit :=
  verify eqxVerify challenge data s.n s.d

/-- `solve`: build the seed, run the external `equix::solve` (modelled by
`eqxSolve`, already returning each candidate as its 16 digest bytes), fail on
a solver error or an empty candidate list, else take the first candidate. -/
def solve (eqxSolve : List Nat → Except Unit (List (List Nat)))
    (challenge data nonce : List Nat) : Except CrankXError Solution :=
  let seed := build_seed challenge data nonce
  match eqxSolve seed with
  | Except.error _ => Except.error CrankXError.EquiXFailure
  | Except.ok solutions =>
    match solutions with
    | [] => Except.error CrankXError.NoSolution
    | digest :: _ => Except.ok (Solution.new digest nonce)

/-- `solve_with_memory`: build an EquiX instance for the seed (`eqxBuild`,
may fail), then run its memory-reusing solver (`eqxSolveMem`); fail on a
build error or an empty candidate list, else take the first candidate. -/
def solve_with_memory {Mem EqX : Type}
    (eqxBuild : List Nat → Except Unit EqX)
    (eqxSolveMem : EqX → Mem → List (List Nat))
    (mem : Mem) (challenge data nonce : List Nat) : Except CrankXError Solution :=
  let seed := build_seed challenge data nonce
  match eqxBuild seed with
  | Except.error _ => Except.error CrankXError.EquiXFailure
  | Except.ok eq =>
    match eqxSolveMem eq mem with
    | [] => Except.error CrankXError.NoSolution
    | digest :: _ => Except.ok (Solution.new digest nonce)

/-! ### example driver (src/example/src/main.rs) -/

/-- The example's difficulty target. -/
def DIFFICULTY : Nat := 8

/-- `u64::to_le_bytes`. -/
def u64ToLeBytes (x : Nat) : List Nat :=
  (List.range 8).map fun i => (x >>> (8 * i)) % 256

/-- `prove_work`: structural verification first, then the difficulty check,
rejecting a low-difficulty solution with `InvalidSolution`. -/
def prove_work (eqxVerify : List Nat → List Nat → Bool)
    (challenge data : List Nat) (nonce : Nat) (s : Solution) :
    Except CrankXError Unit :=
  match verify eqxVerify challenge data (u64ToLeBytes nonce) s.d with
  | Except.error e => Except.error e
  | Except.ok _ =>
    if s.difficulty < DIFFICULTY then Except.error CrankXError.InvalidSolution
    else Except.ok ()

/-! ### reference notions taken from the spec's wording -/

/-- Spec wording: a byte as its 8 bits, most significant first. -/
def bits8 (b : Nat) : List Bool :=
  (List.range 8).map fun i => b.testBit (7 - i)

/-- Spec wording: the number of leading zero bits of a bit string. -/
def clzBits : List Bool → Nat
  | [] => 0
  | true :: _ => 0
  | false :: rest => 1 + clzBits rest

/-- The hash-consistency invariant of C1: the stored hash is the one
recomputed from the stored digest and nonce. -/
def hashConsistent (s : Solution) : Prop :=
  s.h = compute_hash s.d s.n

instance (s : Solution) : Decidable (hashConsistent s) := by
  unfold hashConsistent; infer_instance

/-! ### Theorems -/

/-- C9: `build_seed` returns exactly `challenge ++ data ++ nonce`, of length
`32 + N + 8`, with no separators; with the three widths fixed the
concatenation is unambiguous (injective). -/
theorem build_seed_concat (N : Nat) (challenge data nonce : List Nat)
    (hc : challenge.length = 32) (hd : data.length = N) (hn : nonce.length = 8) :
    build_seed challenge data nonce = challenge ++ data ++ nonce ∧
    (build_seed challenge data nonce).length = 32 + N + 8 ∧
    ∀ c2 d2 n2 : List Nat, c2.length = 32 → d2.length = N → n2.length = 8 →
      build_seed challenge data nonce = build_seed c2 d2 n2 →
      challenge = c2 ∧ data = d2 ∧ n2 = nonce := by
  refine ⟨by simp [build_seed], by simp [build_seed, hc, hd, hn]; omega, ?_⟩
  intro c2 d2 n2 hc2 hd2 hn2 heq
  simp only [build_seed, List.nil_append, List.append_assoc] at heq
  obtain ⟨h1, h2⟩ := List.append_inj heq (hc.trans hc2.symm)
  obtain ⟨h3, h4⟩ := List.append_inj h2 (hd.trans hd2.symm)
  exact ⟨h1, h3, h4.symm⟩

/-- Witness for C9 at a concrete challenge, 3-byte segment and nonce. -/
theorem build_seed_concat_witness :
    (build_seed (List.replicate 32 0) [1, 2, 3] (List.replicate 8 0)).length
      = 32 + 3 + 8 :=
  (build_seed_concat 3 (List.replicate 32 0) [1, 2, 3] (List.replicate 8 0)
    (by simp) (by simp) (by simp)).2.1

/-- C5: `to_bytes` is the fixed 24-byte layout digest-then-nonce, and
`from_bytes (to_bytes s)` reproduces the digest and nonce exactly while
recomputing the hash from them. -/
theorem from_bytes_to_bytes_round_trip (s : Solution)
    (hd : s.d.length = 16) (hn : s.n.length = 8) :
    s.to_bytes.length = 24 ∧
    s.to_bytes.take 16 = s.d ∧
    s.to_bytes.drop 16 = s.n ∧
    (Solution.from_bytes s.to_bytes).d = s.d ∧
    (Solution.from_bytes s.to_bytes).n = s.n ∧
    (Solution.from_bytes s.to_bytes).h = compute_hash s.d s.n := by
  have ht : s.to_bytes.take 16 = s.d := List.take_left' hd
  have hr : s.to_bytes.drop 16 = s.n := List.drop_left' hd
  refine ⟨?_, ht, hr, ?_, ?_, ?_⟩
  · simp [Solution.to_bytes, hd, hn]
  · simp [Solution.from_bytes, Solution.new, ht]
  · simp [Solution.from_bytes, Solution.new, hr]
  · simp [Solution.from_bytes, Solution.new, ht, hr]

/-- Witness for C5 at a concrete solution. -/
theorem from_bytes_to_bytes_round_trip_witness :
    ((Solution.new (List.replicate 16 0) (List.replicate 8 0)).to_bytes).take 16
      = List.replicate 16 0 :=
  (from_bytes_to_bytes_round_trip
    (Solution.new (List.replicate 16 0) (List.replicate 8 0))
    (by simp [Solution.new]) (by simp [Solution.new])).2.1

/-- C10: construction and serialization keep the raw digest: `new` stores the
input digest verbatim, the hash is taken over the canonicalized copy, and
`to_bytes` emits the raw (not the canonical) digest — witnessed by a digest
whose serialized form differs from its canonical form. -/
theorem digest_kept_raw :
    (∀ digest nonce : List Nat,
      (Solution.new digest nonce).d = digest ∧
      (Solution.new digest nonce).to_bytes = digest ++ nonce ∧
      (Solution.new digest nonce).h = keccak256 (to_canonical digest ++ nonce)) ∧
    (∃ digest nonce : List Nat, digest.length = 16 ∧ nonce.length = 8 ∧
      (Solution.new digest nonce).to_bytes.take 16 ≠ to_canonical digest) := by
  constructor
  · exact fun digest nonce => ⟨rfl, rfl, rfl⟩
  · exact ⟨[0, 1, 0, 0, 0, 0, 0, 0, 0, 0, 0, 0, 0, 0, 0, 0],
      List.replicate 8 0, by decide, by decide, by decide⟩

/-- C6: `solve` maps a solver failure to `EquiXFailure`, an empty candidate
list to `NoSolution`, and otherwise builds the solution from exactly the
first candidate in the solver's order, paired with the given nonce. -/
theorem solve_cases (eqxSolve : List Nat → Except Unit (List (List Nat)))
    (challenge data nonce : List Nat) :
    (∀ e, eqxSolve (build_seed challenge data nonce) = Except.error e →
      solve eqxSolve challenge data nonce = Except.error CrankXError.EquiXFailure) ∧
    (eqxSolve (build_seed challenge data nonce) = Except.ok [] →
      solve eqxSolve challenge data nonce = Except.error CrankXError.NoSolution) ∧
    (∀ digest rest,
      eqxSolve (build_seed challenge data nonce) = Except.ok (digest :: rest) →
      solve eqxSolve challenge data nonce = Except.ok (Solution.new digest nonce)) := by
  refine ⟨?_, ?_, ?_⟩
  · intro e he; simp [solve, he]
  · intro he; simp [solve, he]
  · intro digest rest he; simp [solve, he]

/-- Witness for C6: a solver returning one candidate yields that candidate. -/
theorem solve_cases_witness :
    solve (fun _ => Except.ok [List.replicate 16 1]) [] [] [] =
      Except.ok (Solution.new (List.replicate 16 1) []) :=
  (solve_cases (fun _ => Except.ok [List.replicate 16 1]) [] [] []).2.2
    (List.replicate 16 1) [] rfl

/-- C7: whenever the external engine reports the same outcome through both
entry points for the seed (`eqxSolve` agreeing with build-then-solve on
`mem`), `solve` and `solve_with_memory` return the same result: the same
solution when one exists and the same error kind otherwise. -/
theorem solve_with_memory_equiv_solve (Mem EqX : Type)
    (eqxSolve : List Nat → Except Unit (List (List Nat)))
    (eqxBuild : List Nat → Except Unit EqX)
    (eqxSolveMem : EqX → Mem → List (List Nat))
    (mem : Mem) (challenge data nonce : List Nat)
    (h : eqxSolve (build_seed challenge data nonce) =
      Except.map (fun eq => eqxSolveMem eq mem)
        (eqxBuild (build_seed challenge data nonce))) :
    solve eqxSolve challenge data nonce =
      solve_with_memory eqxBuild eqxSolveMem mem challenge data nonce := by
  simp only [solve, solve_with_memory]
  cases hb : eqxBuild (build_seed challenge data nonce) with
  | error e => rw [hb] at h; simp [Except.map] at h; rw [h]
  | ok eq => rw [hb] at h; simp [Except.map] at h; rw [h]

/-- Witness for C7 with a concrete one-candidate engine. -/
theorem solve_with_memory_equiv_solve_witness :
    solve (fun _ => Except.ok [List.replicate 16 2]) [] [] [] =
      solve_with_memory (fun _ => Except.ok ()) (fun _ _ => [List.replicate 16 2])
        () [] [] [] :=
  solve_with_memory_equiv_solve Unit Unit
    (fun _ => Except.ok [List.replicate 16 2]) (fun _ => Except.ok ())
    (fun _ _ => [List.replicate 16 2]) () [] [] [] rfl

/-- C3 counterexample: when the external structural check rejects, `verify`
returns `EquiXFailure`, not `InvalidSolution` as claimed. -/
theorem verify_rejection_not_invalid_solution :
    verify (fun _ _ => false) (List.replicate 32 0) (List.replicate 3 0)
        (List.replicate 8 0) (List.replicate 16 0) =
      Except.error CrankXError.EquiXFailure ∧
    verify (fun _ _ => false) (List.replicate 32 0) (List.replicate 3 0)
        (List.replicate 8 0) (List.replicate 16 0) ≠
      Except.error CrankXError.InvalidSolution := by
  exact ⟨rfl, by simp [verify]⟩

/-- C3 amended: a digest failing the external structural check makes `verify`
fail with the `EquiXFailure` kind, and `verify` can never return
`InvalidSolution`; its outcome involves no difficulty computation. -/
theorem verify_error_kind (eqxVerify : List Nat → List Nat → Bool)
    (challenge data nonce digest : List Nat)
    (hfail : eqxVerify (build_seed challenge data nonce) digest = false) :
    verify eqxVerify challenge data nonce digest =
      Except.error CrankXError.EquiXFailure ∧
    ∀ (ev : List Nat → List Nat → Bool) (c2 d2 n2 g2 : List Nat),
      verify ev c2 d2 n2 g2 ≠ Except.error CrankXError.InvalidSolution := by
  constructor
  · simp [verify, hfail]
  · intro ev c2 d2 n2 g2
    simp only [verify]
    split <;> simp

/-- Witness for C3's amended theorem. -/
theorem verify_error_kind_witness :
    verify (fun _ _ => false) [] [] [] [] =
      Except.error CrankXError.EquiXFailure :=
  (verify_error_kind (fun _ _ => false) [] [] [] [] rfl).1

/-- C8: the example's acceptance check takes a submission exactly when the
structural verification succeeds and the difficulty reaches the target, and
a structurally valid but low-difficulty solution is rejected with
`InvalidSolution` while a verification error propagates as is. -/
theorem prove_work_accepts_iff (eqxVerify : List Nat → List Nat → Bool)
    (challenge data : List Nat) (nonce : Nat) (s : Solution) :
    (prove_work eqxVerify challenge data nonce s = Except.ok () ↔
      (verify eqxVerify challenge data (u64ToLeBytes nonce) s.d = Except.ok () ∧
        DIFFICULTY ≤ s.difficulty)) ∧
    (verify eqxVerify challenge data (u64ToLeBytes nonce) s.d = Except.ok () →
      s.difficulty < DIFFICULTY →
      prove_work eqxVerify challenge data nonce s =
        Except.error CrankXError.InvalidSolution) ∧
    (∀ e, verify eqxVerify challenge data (u64ToLeBytes nonce) s.d =
        Except.error e →
      prove_work eqxVerify challenge data nonce s = Except.error e) := by
  simp only [prove_work, DIFFICULTY]
  cases hv : verify eqxVerify challenge data (u64ToLeBytes nonce) s.d with
  | error e => simp
  | ok u =>
    cases u
    refine ⟨?_, ?_, ?_⟩
    · by_cases hlt : s.difficulty < 8
      · rw [if_pos hlt]; simp; omega
      · rw [if_neg hlt]; simp; omega
    · intro _ hlt; rw [if_pos hlt]
    · intro e he; cases he

/-- Witness for C8: a consistent high-difficulty submission is accepted. -/
theorem prove_work_accepts_iff_witness :
    prove_work (fun _ _ => true) [] [] 0 Solution.default = Except.ok () :=
  (prove_work_accepts_iff (fun _ _ => true) [] [] 0 Solution.default).1.mpr
    ⟨rfl, by decide⟩

/-- Leading-zero bits of an appended bit string, all-zero first part. -/
theorem clzBits_append_allFalse (l l' : List Bool) (h : ∀ x ∈ l, x = false) :
    clzBits (l ++ l') = l.length + clzBits l' := by
  induction l with
  | nil => simp [clzBits]
  | cons a rest ih =>
    have ha : a = false := h a (by simp)
    subst ha
    simp only [List.cons_append, clzBits, List.length_cons, List.append_eq]
    rw [ih fun x hx => h x (by simp [hx])]
    omega

/-- Leading-zero bits of an appended bit string stop at a one bit. -/
theorem clzBits_append_of_mem_true (l l' : List Bool) (h : true ∈ l) :
    clzBits (l ++ l') = clzBits l := by
  induction l with
  | nil => simp at h
  | cons a rest ih =>
    cases a
    · have hr : true ∈ rest := by simpa using h
      simp only [List.cons_append, clzBits, List.append_eq]
      rw [ih hr]
    · simp [clzBits]

/-- A byte's leading-zero count never exceeds 8. -/
theorem lz8_le_eight (b : Nat) : lz8 b ≤ 8 := by
  unfold lz8; split_ifs <;> omega

/-- A non-zero value has a leading-zero count below 8. -/
theorem lz8_lt_eight (b : Nat) (hb : b ≠ 0) : lz8 b < 8 := by
  unfold lz8; split_ifs <;> omega

set_option maxRecDepth 10000 in
/-- Per-byte facts relating `lz8` to the big-endian bit view. -/
theorem bits8_byte_facts (b : Nat) (hb : b < 256) :
    clzBits (bits8 b) = lz8 b ∧ (bits8 b).length = 8 ∧
    (b ≠ 0 → true ∈ bits8 b) ∧
    (b = 0 → ∀ x ∈ bits8 b, x = false) := by
  revert hb
  revert b
  decide

/-- The scan never counts more than 8 bits per byte. -/
theorem difficulty_le_mul (l : List Nat) : difficulty l ≤ 8 * l.length := by
  induction l with
  | nil => simp [difficulty]
  | cons b rest ih =>
    have h8 := lz8_le_eight b
    simp only [difficulty, List.length_cons]
    split <;> omega

/-- Bytes after the first non-zero byte do not change the result. -/
theorem difficulty_append_zeros (pre : List Nat) (b : Nat) (post : List Nat)
    (hpre : ∀ x ∈ pre, x = 0) (hb : b ≠ 0) :
    difficulty (pre ++ b :: post) = 8 * pre.length + lz8 b := by
  induction pre with
  | nil =>
    simp only [List.nil_append, difficulty, List.length_nil]
    rw [if_pos (lz8_lt_eight b hb)]
    omega
  | cons a rest ih =>
    have ha : a = 0 := hpre a (by simp)
    subst ha
    have h0 : lz8 0 = 8 := rfl
    simp only [List.cons_append, difficulty, h0, List.length_cons, List.append_eq]
    rw [if_neg (by omega), ih fun x hx => hpre x (by simp [hx])]
    ring

/-- C2: `difficulty` is the leading-zero-bit count of the hash read as a
big-endian bit string; it lies in `[0, 256]`, is 256 exactly on the all-zero
hash, is at most 8 when the first byte is non-zero, is 0 when the first byte
is `0x80`, and ignores every byte after the first non-zero one. -/
theorem difficulty_spec (hash : List Nat) (hlen : hash.length = 32)
    (hb : ∀ b ∈ hash, b < 256) :
    difficulty hash = clzBits (hash.map bits8).flatten ∧
    difficulty hash ≤ 256 ∧
    (hash = List.replicate 32 0 → difficulty hash = 256) ∧
    (∀ b rest, hash = b :: rest → b ≠ 0 → difficulty hash = lz8 b ∧
      difficulty hash ≤ 8) ∧
    (∀ rest, hash = 128 :: rest → difficulty hash = 0) ∧
    (∀ pre b post post2, hash = pre ++ b :: post → (∀ x ∈ pre, x = 0) →
      b ≠ 0 → difficulty (pre ++ b :: post2) = difficulty hash) := by
  refine ⟨?_, ?_, ?_, ?_, ?_, ?_⟩
  · clear hlen
    induction hash with
    | nil => simp [difficulty, clzBits]
    | cons b rest ih =>
      have hblt : b < 256 := hb b (by simp)
      obtain ⟨hclz, hblen, htrue, hzero⟩ := bits8_byte_facts b hblt
      simp only [List.map_cons, List.flatten_cons, difficulty]
      by_cases h0 : b = 0
      · subst h0
        have h8 : lz8 0 = 8 := rfl
        rw [if_neg (by simp [h8]),
          clzBits_append_allFalse _ _ (hzero rfl), hblen,
          ih fun x hx => hb x (by simp [hx]), h8]
      · rw [if_pos (lz8_lt_eight b h0),
          clzBits_append_of_mem_true _ _ (htrue h0), hclz]
  · have := difficulty_le_mul hash
    omega
  · intro h; subst h; decide
  · intro b rest h hb0
    subst h
    have h1 : difficulty (b :: rest) = lz8 b := by
      simp only [difficulty]
      rw [if_pos (lz8_lt_eight b hb0)]
    exact ⟨h1, h1 ▸ lz8_le_eight b⟩
  · intro rest h
    subst h
    have h128 : lz8 128 = 0 := rfl
    simp [difficulty, h128]
  · intro pre b post post2 h hpre hb0
    subst h
    rw [difficulty_append_zeros pre b post hpre hb0,
      difficulty_append_zeros pre b post2 hpre hb0]

/-- Witness for C2 at the all-zero hash. -/
theorem difficulty_spec_witness :
    difficulty (List.replicate 32 0) = 256 :=
  (difficulty_spec (List.replicate 32 0) (by simp) (by decide)).2.2.1 rfl

/-- C4: digests that are permutations of each other as 16-bit words share one
canonical form and hence one commitment hash for each nonce. -/
theorem canonical_perm_invariant (d1 d2 nonce : List Nat)
    (hperm : (bytesToWords d1).Perm (bytesToWords d2)) :
    to_canonical d1 = to_canonical d2 ∧
    compute_hash d1 nonce = compute_hash d2 nonce := by
  have hsort : List.insertionSort (· ≤ ·) (bytesToWords d1) =
      List.insertionSort (· ≤ ·) (bytesToWords d2) :=
    List.eq_of_perm_of_sorted
      ((List.perm_insertionSort _ _).trans
        (hperm.trans (List.perm_insertionSort _ _).symm))
      (List.sorted_insertionSort _ _) (List.sorted_insertionSort _ _)
  exact ⟨by simp [to_canonical, hsort], by simp [compute_hash, to_canonical, hsort]⟩

/-- Witness for C4 on two word-swapped digests. -/
theorem canonical_perm_invariant_witness :
    to_canonical [1, 0, 2, 0, 0, 0, 0, 0, 0, 0, 0, 0, 0, 0, 0, 0] =
      to_canonical [2, 0, 1, 0, 0, 0, 0, 0, 0, 0, 0, 0, 0, 0, 0, 0] :=
  (canonical_perm_invariant
    [1, 0, 2, 0, 0, 0, 0, 0, 0, 0, 0, 0, 0, 0, 0, 0]
    [2, 0, 1, 0, 0, 0, 0, 0, 0, 0, 0, 0, 0, 0, 0, 0]
    (List.replicate 8 0) (by decide)).1

set_option maxRecDepth 1000000 in
/-- C1 counterexample: the derived `Default` instance is a public way to
construct a `Solution`, and its all-zero hash field differs from the hash
recomputed from its digest and nonce. -/
theorem default_solution_inconsistent : ¬ hashConsistent Solution.default := by
  decide

/-- C1 amended: every constructor that derives the hash — `new`,
`from_bytes`, `solve`, `solve_with_memory` — yields a solution whose hash
field is `compute_hash` of its digest and nonce (the derived `Default` is
the one exception). -/
theorem solution_constructors_hash_consistent :
    (∀ digest nonce : List Nat, hashConsistent (Solution.new digest nonce)) ∧
    (∀ bytes : List Nat, hashConsistent (Solution.from_bytes bytes)) ∧
    (∀ (eqxSolve : List Nat → Except Unit (List (List Nat)))
      (challenge data nonce : List Nat) (s : Solution),
      solve eqxSolve challenge data nonce = Except.ok s → hashConsistent s) ∧
    (∀ (Mem EqX : Type) (eqxBuild : List Nat → Except Unit EqX)
      (eqxSolveMem : EqX → Mem → List (List Nat)) (mem : Mem)
      (challenge data nonce : List Nat) (s : Solution),
      solve_with_memory eqxBuild eqxSolveMem mem challenge data nonce =
        Except.ok s → hashConsistent s) := by
  refine ⟨fun digest nonce => rfl, fun bytes => rfl, ?_, ?_⟩
  · intro eqxSolve challenge data nonce s h
    cases he : eqxSolve (build_seed challenge data nonce) with
    | error e => simp [solve, he] at h
    | ok sols =>
      cases sols with
      | nil => simp [solve, he] at h
      | cons dg rest =>
        simp only [solve, he] at h
        cases h
        rfl
  · intro Mem EqX eqxBuild eqxSolveMem mem challenge data nonce s h
    cases he : eqxBuild (build_seed challenge data nonce) with
    | error e => simp [solve_with_memory, he] at h
    | ok eq =>
      cases hm : eqxSolveMem eq mem with
      | nil => simp [solve_with_memory, he, hm] at h
      | cons dg rest =>
        simp only [solve_with_memory, he, hm] at h
        cases h
        rfl

/-- Witness for C1's amended theorem through `solve`. -/
theorem solution_constructors_hash_consistent_witness :
    hashConsistent (Solution.new (List.replicate 16 0) (List.replicate 8 0)) :=
  solution_constructors_hash_consistent.2.2.1
    (fun _ => Except.ok [List.replicate 16 0]) [] [] (List.replicate 8 0)
    (Solution.new (List.replicate 16 0) (List.replicate 8 0)) rfl

end Crankx
